import Mathlib

/-!
Verification development for the FootySim repository.

The file shallowly embeds the deterministic aggregation logic of the
repository: the standings fold of the `table` CLI command
(src/footysim/cli.py), the `topscorers` aggregation (same file), the
position validation and best-players query of
src/footysim/services/players_service.py, and the fixture uniqueness
constraint of src/footysim/models/fixture.py.  Python strings are embedded
as Lean `String`, with character-level helpers mirroring `str.upper`,
`str.strip`, `str.lower` and lexicographic comparison by code point.
Python's `sorted` with a key function is embedded as a stable merge sort
with the boolean comparator induced by the key.
-/

namespace FootySim

/-- Strict lexicographic comparison of key lists, mirroring how Python
compares tuples and strings componentwise: a proper prefix is smaller. -/
def lexLt {α : Type} [LinearOrder α] : List α → List α → Bool
  | _, [] => false
  | [], _ :: _ => true
  | a :: as, b :: bs => if a < b then true else if b < a then false else lexLt as bs

/-- Non-strict comparator used as the sort predicate for a key list. -/
def lexLe {α : Type} [LinearOrder α] (x y : List α) : Bool := !(lexLt y x)

/-- Insert into a sorted list, before the first element not smaller than
the inserted one. -/
def insertSorted {α : Type} (le : α → α → Bool) (a : α) : List α → List α
  | [] => [a]
  | b :: bs => if le a b then a :: b :: bs else b :: insertSorted le a bs

/-- Stable insertion sort, the embedding of Python's sorted(...) with a
key function: an element of the input goes before a later element of the
input whenever the comparator puts them in either order (ties keep input
order, as Python's stable sort does). -/
def sortBy {α : Type} (le : α → α → Bool) : List α → List α
  | [] => []
  | a :: as => insertSorted le a (sortBy le as)

/-- Code points of a string, as the integer key used for lexicographic
name comparison (Python compares strings by code point). -/
def nameKey (s : String) : List Int := s.data.map (fun c => (c.toNat : Int))

/-- Code points of the lowercased string, mirroring the Python key
component t["name"].lower() followed by string comparison. -/
def nameKeyCI (s : String) : List Int := (s.data.map Char.toLower).map (fun c => (c.toNat : Int))

/-- One completed match as consumed by the standings fold of the `table`
command: home club id, away club id, home goals, away goals. -/
structure MatchRes where
  home : Nat
  away : Nat
  hg : Nat
  ag : Nat
deriving DecidableEq, Repr

/-- One standings-table row, mirroring the per-club dict of the `table`
command (name, P, W, D, L, GF, GA, GD, PTS). -/
structure Row where
  name : String
  P : Nat
  W : Nat
  D : Nat
  L : Nat
  GF : Nat
  GA : Nat
  GD : Int
  PTS : Nat
deriving DecidableEq, Repr

/-- Club-name lookup, mirroring club_names.get(cid, f"Club \x7bcid\x7d"). -/
def nameOf (clubs : List (Nat × String)) (cid : Nat) : String :=
  match clubs.find? (fun p => p.1 = cid) with
  | some p => p.2
  | none => "Club " ++ toString cid

/-- Fresh all-zero row for a club, mirroring the dict comprehension that
initialises the table. -/
def initRow (nm : String) : Row :=
  { name := nm
    P := 0
    W := 0
    D := 0
    L := 0
    GF := 0
    GA := 0
    GD := 0
    PTS := 0 }

/-- Initial table state: every club id is mapped to its all-zero row. -/
def initTable (clubs : List (Nat × String)) : Nat → Row :=
  fun cid => initRow (nameOf clubs cid)

/-- Home-side update for one match, mirroring the mutations applied to
th = table[home_id]: P, GF, GA always; then the result branch on hg/ag. -/
def applyHome (hg ag : Nat) (r : Row) : Row :=
  let r1 := { r with P := r.P + 1, GF := r.GF + hg, GA := r.GA + ag }
  if hg > ag then { r1 with W := r1.W + 1, PTS := r1.PTS + 3 }
  else if hg < ag then { r1 with L := r1.L + 1 }
  else { r1 with D := r1.D + 1, PTS := r1.PTS + 1 }

/-- Away-side update for one match, mirroring the mutations applied to
ta = table[away_id]. -/
def applyAway (hg ag : Nat) (r : Row) : Row :=
  let r1 := { r with P := r.P + 1, GF := r.GF + ag, GA := r.GA + hg }
  if hg > ag then { r1 with L := r1.L + 1 }
  else if hg < ag then { r1 with W := r1.W + 1, PTS := r1.PTS + 3 }
  else { r1 with D := r1.D + 1, PTS := r1.PTS + 1 }

/-- Update the table at one club id, mirroring mutation of one dict entry. -/
def updAt (t : Nat → Row) (cid : Nat) (f : Row → Row) : Nat → Row :=
  fun x => if x = cid then f (t x) else t x

/-- Fold step for one match: the home row is mutated, then the away row,
exactly as the loop body of the `table` command does. -/
def stepMatch (t : Nat → Row) (m : MatchRes) : Nat → Row :=
  updAt (updAt t m.home (applyHome m.hg m.ag)) m.away (applyAway m.hg m.ag)

/-- The standings fold over the match list. -/
def foldTable (clubs : List (Nat × String)) (ms : List MatchRes) : Nat → Row :=
  ms.foldl stepMatch (initTable clubs)

/-- Goal-difference pass: t["GD"] = t["GF"] - t["GA"]. -/
def setGD (r : Row) : Row := { r with GD := (r.GF : Int) - (r.GA : Int) }

/-- Sort key of a row, encoding the Python tuple
(-PTS, -GD, -GF, name.lower()) as a flat integer list (the first three
entries are always present, so flat lexicographic comparison agrees with
tuple comparison). -/
def rowKey (r : Row) : List Int :=
  -(r.PTS : Int) :: -r.GD :: -(r.GF : Int) :: nameKeyCI r.name

/-- Comparator of the standings sort. -/
def rowLe (a b : Row) : Bool := lexLe (rowKey a) (rowKey b)

/-- Ranked standings rows: one row per club of the season (in club-list
order), goal differences filled in, then sorted by the Python key. -/
def tableRows (clubs : List (Nat × String)) (ms : List MatchRes) : List Row :=
  sortBy rowLe (clubs.map (fun c => setGD (foldTable clubs ms c.1)))

/-- The `table` command as observed by the user: it prints no table when
the season has no clubs or when no match has been played (the early
returns of the command), and the ranked rows otherwise. -/
def tableCmd (clubs : List (Nat × String)) (ms : List MatchRes) : Option (List Row) :=
  if clubs.isEmpty then none
  else if ms.isEmpty then none
  else some (tableRows clubs ms)

/-- Case-insensitive string comparison by code point of the lowercased
strings, used to state the final tiebreak of the standings order. -/
def strLeCI (a b : String) : Prop := lexLe (nameKeyCI a) (nameKeyCI b) = true

/-- The ordering the specification demands of the standings output:
descending points, then descending goal difference, then descending
goals-for, then ascending lowercased club name. -/
def standingsOrder (a b : Row) : Prop :=
  b.PTS < a.PTS ∨
    (a.PTS = b.PTS ∧ (b.GD < a.GD ∨
      (a.GD = b.GD ∧ (b.GF < a.GF ∨
        (a.GF = b.GF ∧ strLeCI a.name b.name)))))

/-- Additive normal form of a row update: every field of the fold is only
ever incremented by a per-match constant. -/
def addParts (r : Row) (p w d l gf ga pts : Nat) : Row :=
  { r with
    P := r.P + p
    W := r.W + w
    D := r.D + d
    L := r.L + l
    GF := r.GF + gf
    GA := r.GA + ga
    PTS := r.PTS + pts }

/-- One goal event as consumed by the `topscorers` query: the scoring
player's id and name (the join on Goal.player_id) and the own-goal flag. -/
structure GoalEv where
  pid : Nat
  pname : String
  own : Bool
deriving DecidableEq, Repr

/-- Non-own goals of the season, mirroring the WHERE clause
Goal.is_own_goal.is_(False) of the `topscorers` query. -/
def validGoals (goals : List GoalEv) : List GoalEv := goals.filter (fun g => !g.own)

/-- Grouped goal counts of the `topscorers` query: own goals are filtered
out, the remaining goals are grouped by (Player.id, Player.name) and
counted. -/
def scorerCounts (goals : List GoalEv) : List ((Nat × String) × Nat) :=
  (((validGoals goals).map (fun g => (g.pid, g.pname))).dedup).map
    (fun k => (k, (validGoals goals).countP (fun g => (g.pid, g.pname) = k)))

/-- Sort key of one scorer entry: count descending, then name ascending
(order_by(count desc, Player.name.asc())). -/
def scorerKey (e : (Nat × String) × Nat) : List Int := -(e.2 : Int) :: nameKey e.1.2

/-- Comparator of the top-scorers sort. -/
def scorerLe (a b : (Nat × String) × Nat) : Bool := lexLe (scorerKey a) (scorerKey b)

/-- The `topscorers` aggregation: group and count non-own goals, sort by
descending count then ascending name, truncate to the limit, and number
the output rows 1.. (enumerate(rows, start=1)); each output entry is
(rank, player name, goal count). -/
def topscorers (goals : List GoalEv) (limit : Nat) : List (Nat × String × Nat) :=
  ((sortBy scorerLe (scorerCounts goals)).take limit).enum.map
    (fun e => (e.1 + 1, e.2.1.2, e.2.2))

/-- Whitespace stripping on a character list, mirroring str.strip(). -/
def stripChars (l : List Char) : List Char :=
  ((l.dropWhile Char.isWhitespace).reverse.dropWhile Char.isWhitespace).reverse

/-- Python position.upper().strip() on the embedded string. -/
def upperStrip (s : String) : String :=
  String.mk (stripChars (s.data.map Char.toUpper))

/-- The fixed set of valid position codes. -/
def validPositions : List String := ["GK", "DF", "MF", "FW"]

/-- Embedding of players_service._normalize_position: a missing or empty
(falsy) position yields None, otherwise the upper-cased stripped code is
validated against the fixed set and returned; an invalid code raises
ValueError, embedded as the error branch. -/
def normalizePosition (position : Option String) : Except String (Option String) :=
  match position with
  | none => .ok none
  | some s =>
    if s = "" then .ok none
    else
      let pos := upperStrip s
      if pos ∈ validPositions then .ok (some pos)
      else .error "Poste invalide. Utilise GK/DF/MF/FW."

/-- One Player row of the best-players query.  The Player model itself is
not among the available sources; its columns are taken from the service
and the spec (name, age, position, optional club id, and the four 0-100
integer attributes pace, shot, pass, defend). -/
structure PlayerRec where
  id : Nat
  name : String
  age : Nat
  position : String
  clubId : Option Nat
  pace : Nat
  shot : Nat
  pass_ : Nat
  defend : Nat
deriving DecidableEq, Repr

/-- One Club row as joined by the best-players query. -/
structure ClubRec where
  id : Nat
  seasonId : Nat
  name : String
deriving DecidableEq, Repr

/-- Modelled from the spec: the overall score of the best-players query is
the unweighted mean (pace + shot + pass + defend) / 4.  The division by
the constant 4 happens in the database layer, which is not among the
available sources; since dividing by a positive constant is strictly
monotone and the mean is compared exactly, the integer sum pace + shot +
pass + defend (four times the overall score) is used as the comparison
key, and the exact mean is recovered in the theorem statements. -/
def overall4 (p : PlayerRec) : Nat := p.pace + p.shot + p.pass_ + p.defend

/-- Outer join of one player against the club list
(join(Club, Club.id == Player.club_id, isouter=True)): a player with no
club id, or with a club id matching no club, keeps a NULL club side. -/
def joinClub (clubs : List ClubRec) (p : PlayerRec) : Option ClubRec :=
  match p.clubId with
  | none => none
  | some cid => clubs.find? (fun c => c.id = cid)

/-- Season filter of the best-players query: with a season id the WHERE
clause Club.season_id == season_id is applied to the outer-joined club
column, which is never true on a NULL club row; with no season id every
row is kept. -/
def seasonKeep (seasonFilter : Option Nat) (oc : Option ClubRec) : Bool :=
  match seasonFilter with
  | none => true
  | some sid =>
    match oc with
    | none => false
    | some c => c.seasonId = sid

/-- Position filter of the best-players query (Player.position == pos when
a normalized position was supplied). -/
def posKeep (posFilter : Option String) (p : PlayerRec) : Bool :=
  match posFilter with
  | none => true
  | some pos => p.position = pos

/-- Player rows with their outer-joined club. -/
def joinedRows (players : List PlayerRec) (clubs : List ClubRec) :
    List (PlayerRec × Option ClubRec) :=
  players.map (fun p => (p, joinClub clubs p))

/-- Sort key of the best-players query: overall descending (encoded by the
exact integer key, see overall4), then Player.name ascending. -/
def bpKey (r : PlayerRec × Option ClubRec) : List Int :=
  -(overall4 r.1 : Int) :: nameKey r.1.name

/-- Comparator of the best-players sort. -/
def bpLe (a b : PlayerRec × Option ClubRec) : Bool := lexLe (bpKey a) (bpKey b)

/-- The executed best-players query: join, filter by season and position,
sort by overall descending then name ascending, truncate to the limit. -/
def queryRows (players : List PlayerRec) (clubs : List ClubRec)
    (seasonFilter : Option Nat) (posFilter : Option String) (limit : Nat) :
    List (PlayerRec × Option ClubRec) :=
  (sortBy bpLe ((joinedRows players clubs).filter
      (fun r => seasonKeep seasonFilter r.2 && posKeep posFilter r.1))).take limit

/-- One payload entry of best_players. -/
structure BPRow where
  rank : Nat
  id : Nat
  name : String
  age : Nat
  position : String
  club : String
  overall : Nat
deriving DecidableEq, Repr

/-- Payload construction for one 0-based output position: rank is the
position plus one (enumerate(rows, start=1)), the club label is the club
name with the Python-falsy fallback club or "(libre)", and overall is
int(overall or 0), the truncated mean (overall4 / 4 in integer division,
which equals the floor of the exact mean of the four attributes). -/
def payloadOf (i : Nat) (r : PlayerRec × Option ClubRec) : BPRow :=
  { rank := i + 1
    id := r.1.id
    name := r.1.name
    age := r.1.age
    position := r.1.position
    club :=
      match r.2 with
      | some c => if c.name = "" then "(libre)" else c.name
      | none => "(libre)"
    overall := overall4 r.1 / 4 }

/-- Embedding of players_service.best_players: normalize the position
(propagating its ValueError), run the query, build the ranked payload. -/
def bestPlayers (players : List PlayerRec) (clubs : List ClubRec)
    (seasonFilter : Option Nat) (position : Option String) (limit : Nat) :
    Except String (List BPRow) :=
  match normalizePosition position with
  | .error e => .error e
  | .ok pos =>
    .ok ((queryRows players clubs seasonFilter pos limit).enum.map
      (fun e => payloadOf e.1 e.2))

/-- One Fixture row as constrained by the uq_fixture unique constraint of
the Fixture model (season_id, round, home_club_id, away_club_id). -/
structure FixtureRec where
  seasonId : Nat
  round : Nat
  homeClubId : Nat
  awayClubId : Nat
deriving DecidableEq, Repr

/-- The column tuple of the uq_fixture unique constraint. -/
def uqKey (f : FixtureRec) : Nat × Nat × Nat × Nat :=
  (f.seasonId, f.round, f.homeClubId, f.awayClubId)

/-- A table of fixture rows satisfies the uq_fixture constraint exactly
when no two rows share the (season_id, round, home_club_id, away_club_id)
tuple. -/
def fixtureConstraintOK (fs : List FixtureRec) : Bool :=
  decide (fs.map uqKey).Nodup

theorem lexLt_irrefl {α : Type} [LinearOrder α] : ∀ l : List α, lexLt l l = false
  | [] => rfl
  | a :: as => by simp [lexLt, lexLt_irrefl as]

theorem lexLt_trans {α : Type} [LinearOrder α] :
    ∀ {a b c : List α}, lexLt a b = true → lexLt b c = true → lexLt a c = true
  | _, [], _, hab, _ => by simp [lexLt] at hab
  | _, _ :: _, [], _, hbc => by simp [lexLt] at hbc
  | [], y :: ys, z :: zs, _, _ => by simp [lexLt]
  | x :: xs, y :: ys, z :: zs, hab, hbc => by
    simp only [lexLt] at hab hbc ⊢
    rcases lt_trichotomy x y with h1 | h1 | h1
    · rcases lt_trichotomy y z with h2 | h2 | h2
      · simp [lt_trans h1 h2]
      · simp [h2 ▸ h1]
      · simp [h2, asymm h2] at hbc
    · subst h1
      rcases lt_trichotomy x z with h2 | h2 | h2
      · simp [h2]
      · subst h2
        simp [lt_irrefl] at hab hbc ⊢
        exact lexLt_trans hab hbc
      · simp [h2, asymm h2] at hbc
    · simp [h1, asymm h1] at hab

theorem lexLt_antisymm {α : Type} [LinearOrder α] :
    ∀ {a b : List α}, lexLt a b = false → lexLt b a = false → a = b
  | [], [], _, _ => rfl
  | [], _ :: _, hab, _ => by simp [lexLt] at hab
  | _ :: _, [], _, hba => by simp [lexLt] at hba
  | x :: xs, y :: ys, hab, hba => by
    simp only [lexLt] at hab hba
    rcases lt_trichotomy x y with h1 | h1 | h1
    · simp [h1] at hab
    · subst h1
      simp [lt_irrefl] at hab hba
      rw [lexLt_antisymm hab hba]
    · simp [h1] at hba

theorem lexLt_asymm {α : Type} [LinearOrder α] {a b : List α}
    (h : lexLt a b = true) : lexLt b a = false := by
  by_contra hcon
  have hba : lexLt b a = true := by
    cases hv : lexLt b a
    · exact absurd hv hcon
    · rfl
  have := lexLt_trans h hba
  rw [lexLt_irrefl] at this
  exact Bool.false_ne_true this

theorem lexLe_trans {α : Type} [LinearOrder α] {a b c : List α}
    (hab : lexLe a b = true) (hbc : lexLe b c = true) : lexLe a c = true := by
  simp only [lexLe, Bool.not_eq_true'] at hab hbc ⊢
  cases hca : lexLt c a
  · rfl
  · rcases hbc' : lexLt b c with _ | _
    · have hbceq := lexLt_antisymm hbc hbc'
      subst hbceq
      rw [hca] at hab
      exact hab
    · have := lexLt_trans hbc' hca
      rw [hab] at this
      exact absurd this Bool.false_ne_true

theorem lexLe_total {α : Type} [LinearOrder α] (a b : List α) :
    (lexLe a b || lexLe b a) = true := by
  simp only [lexLe, Bool.not_eq_true']
  cases hab : lexLt a b
  · simp
  · simp [lexLt_asymm hab]

theorem perm_insertSorted {α : Type} (le : α → α → Bool) (a : α) :
    ∀ l : List α, (insertSorted le a l).Perm (a :: l)
  | [] => List.Perm.refl _
  | b :: bs => by
    unfold insertSorted
    split
    · exact List.Perm.refl _
    · exact ((perm_insertSorted le a bs).cons b).trans (List.Perm.swap a b bs)

theorem perm_sortBy {α : Type} (le : α → α → Bool) :
    ∀ l : List α, (sortBy le l).Perm l
  | [] => List.Perm.refl _
  | a :: as =>
    (perm_insertSorted le a (sortBy le as)).trans ((perm_sortBy le as).cons a)

theorem mem_insertSorted {α : Type} {le : α → α → Bool} {a x : α} {l : List α} :
    x ∈ insertSorted le a l ↔ x = a ∨ x ∈ l := by
  rw [(perm_insertSorted le a l).mem_iff, List.mem_cons]

theorem pairwise_insertSorted {α : Type} {le : α → α → Bool}
    (htrans : ∀ a b c, le a b = true → le b c = true → le a c = true)
    (htotal : ∀ a b, (le a b || le b a) = true) (a : α) :
    ∀ {l : List α}, l.Pairwise (fun x y => le x y = true) →
      (insertSorted le a l).Pairwise (fun x y => le x y = true)
  | [], _ => by simp [insertSorted]
  | b :: bs, h => by
    rw [List.pairwise_cons] at h
    obtain ⟨hb, hbs⟩ := h
    unfold insertSorted
    split
    · rename_i hab
      refine List.Pairwise.cons ?_ (List.Pairwise.cons hb hbs)
      intro x hx
      rcases List.mem_cons.mp hx with hxb | hxbs
      · exact hxb ▸ hab
      · exact htrans a b x hab (hb x hxbs)
    · rename_i hab
      have hba : le b a = true := by
        have := htotal a b
        cases hv : le a b
        · rw [hv] at this
          simpa using this
        · exact absurd hv hab
      refine List.Pairwise.cons ?_ (pairwise_insertSorted htrans htotal a hbs)
      intro x hx
      rcases mem_insertSorted.mp hx with hxa | hxbs
      · exact hxa ▸ hba
      · exact hb x hxbs

theorem pairwise_sortBy {α : Type} {le : α → α → Bool}
    (htrans : ∀ a b c, le a b = true → le b c = true → le a c = true)
    (htotal : ∀ a b, (le a b || le b a) = true) :
    ∀ l : List α, (sortBy le l).Pairwise (fun x y => le x y = true)
  | [] => List.Pairwise.nil
  | a :: as => pairwise_insertSorted htrans htotal a (pairwise_sortBy htrans htotal as)

theorem length_sortBy {α : Type} (le : α → α → Bool) (l : List α) :
    (sortBy le l).length = l.length :=
  (perm_sortBy le l).length_eq

theorem applyHome_eq (hg ag : Nat) (r : Row) :
    applyHome hg ag r =
      addParts r 1 (if ag < hg then 1 else 0) (if hg = ag then 1 else 0)
        (if hg < ag then 1 else 0) hg ag
        (if ag < hg then 3 else if hg = ag then 1 else 0) := by
  rcases Nat.lt_trichotomy hg ag with h | h | h
  · simp [applyHome, addParts, h, Nat.lt_asymm h, Nat.ne_of_lt h, Nat.not_lt_of_lt h]
  · simp [applyHome, addParts, h, Nat.lt_irrefl]
  · simp [applyHome, addParts, h, Nat.lt_asymm h, (Nat.ne_of_lt h).symm, Nat.not_lt_of_lt h]

theorem applyAway_eq (hg ag : Nat) (r : Row) :
    applyAway hg ag r =
      addParts r 1 (if hg < ag then 1 else 0) (if hg = ag then 1 else 0)
        (if ag < hg then 1 else 0) ag hg
        (if hg < ag then 3 else if hg = ag then 1 else 0) := by
  rcases Nat.lt_trichotomy hg ag with h | h | h
  · simp [applyAway, addParts, h, Nat.lt_asymm h, Nat.ne_of_lt h, Nat.not_lt_of_lt h]
  · simp [applyAway, addParts, h, Nat.lt_irrefl]
  · simp [applyAway, addParts, h, Nat.lt_asymm h, (Nat.ne_of_lt h).symm, Nat.not_lt_of_lt h]

theorem addParts_addParts (r : Row) (p w d l gf ga pts p' w' d' l' gf' ga' pts' : Nat) :
    addParts (addParts r p w d l gf ga pts) p' w' d' l' gf' ga' pts' =
      addParts r (p + p') (w + w') (d + d') (l + l') (gf + gf') (ga + ga') (pts + pts') := by
  simp [addParts, Row.mk.injEq]
  omega

theorem stepMatch_apply (t : Nat → Row) (m : MatchRes) (x : Nat) :
    stepMatch t m x =
      if x = m.away then
        applyAway m.hg m.ag (if x = m.home then applyHome m.hg m.ag (t x) else t x)
      else if x = m.home then applyHome m.hg m.ag (t x) else t x := by
  simp only [stepMatch, updAt]

theorem stepMatch_comm (t : Nat → Row) (m1 m2 : MatchRes) :
    stepMatch (stepMatch t m1) m2 = stepMatch (stepMatch t m2) m1 := by
  funext x
  rw [stepMatch_apply, stepMatch_apply, stepMatch_apply, stepMatch_apply]
  split_ifs <;>
    simp [applyHome_eq, applyAway_eq, addParts_addParts, addParts, Row.mk.injEq] <;> omega

theorem foldl_stepMatch_untouched :
    ∀ (ms : List MatchRes) (t : Nat → Row) (cid : Nat),
      (∀ m ∈ ms, m.home ≠ cid ∧ m.away ≠ cid) →
      (ms.foldl stepMatch t) cid = t cid
  | [], _, _, _ => rfl
  | m :: rest, t, cid, h => by
    have hm := h m (List.mem_cons_self m rest)
    have hrest : ∀ m' ∈ rest, m'.home ≠ cid ∧ m'.away ≠ cid :=
      fun m' hm' => h m' (List.mem_cons_of_mem m hm')
    rw [List.foldl_cons, foldl_stepMatch_untouched rest (stepMatch t m) cid hrest,
      stepMatch_apply, if_neg (fun he : cid = m.away => hm.2 he.symm),
      if_neg (fun he : cid = m.home => hm.1 he.symm)]

theorem sum_map_congr_of_ne (l : List (Nat × String)) (f g : Nat → Nat) (a : Nat)
    (heq : ∀ x, x ≠ a → g x = f x) (hna : a ∉ l.map Prod.fst) :
    (l.map (fun c => g c.1)).sum = (l.map (fun c => f c.1)).sum := by
  induction l with
  | nil => rfl
  | cons c rest ih =>
    simp only [List.map_cons, List.mem_cons] at hna ⊢
    push_neg at hna
    simp only [List.sum_cons]
    rw [heq c.1 (Ne.symm hna.1), ih hna.2]

theorem sum_map_single (l : List (Nat × String)) (f g : Nat → Nat) (a B : Nat)
    (hnd : (l.map Prod.fst).Nodup) (ha : a ∈ l.map Prod.fst)
    (heq : ∀ x, g x = if x = a then f x + B else f x) :
    (l.map (fun c => g c.1)).sum = (l.map (fun c => f c.1)).sum + B := by
  induction l with
  | nil => simp at ha
  | cons c rest ih =>
    simp only [List.map_cons, List.nodup_cons] at hnd
    simp only [List.map_cons, List.sum_cons]
    by_cases hc : c.1 = a
    · rw [heq c.1, if_pos hc,
        sum_map_congr_of_ne rest f g a (fun x hx => by rw [heq x, if_neg hx]) (hc ▸ hnd.1)]
      omega
    · have ha' : a ∈ rest.map Prod.fst := by
        rcases List.mem_cons.mp ha with hh | hh
        · exact absurd hh.symm hc
        · exact hh
      rw [heq c.1, if_neg hc, ih hnd.2 ha']
      omega

theorem sum_map_double (l : List (Nat × String)) (f g : Nat → Nat) (hid aid A B : Nat)
    (hnd : (l.map Prod.fst).Nodup) (hha : hid ≠ aid)
    (hh : hid ∈ l.map Prod.fst) (ha : aid ∈ l.map Prod.fst)
    (heq : ∀ x, g x = if x = hid then f x + A else if x = aid then f x + B else f x) :
    (l.map (fun c => g c.1)).sum = (l.map (fun c => f c.1)).sum + A + B := by
  have h1 : ∀ x, g x = if x = hid then (fun y => if y = aid then f y + B else f y) x + A
      else (fun y => if y = aid then f y + B else f y) x := by
    intro x
    show g x = if x = hid then (if x = aid then f x + B else f x) + A
      else if x = aid then f x + B else f x
    by_cases hx : x = hid
    · rw [heq x, if_pos hx, if_pos hx, if_neg (fun hc : x = aid => hha (hx.symm.trans hc))]
    · rw [heq x, if_neg hx, if_neg hx]
  have h2 := sum_map_single l (fun y => if y = aid then f y + B else f y) g hid A hnd hh h1
  have h3 := sum_map_single l f (fun y => if y = aid then f y + B else f y) aid B hnd ha
    (fun x => rfl)
  rw [h2, h3]
  omega

theorem foldl_stepMatch_sum (clubs : List (Nat × String)) (φ : Row → Nat)
    (A B : MatchRes → Nat) (hnd : (clubs.map Prod.fst).Nodup)
    (hH : ∀ (r : Row) (m : MatchRes), φ (applyHome m.hg m.ag r) = φ r + A m)
    (hA : ∀ (r : Row) (m : MatchRes), φ (applyAway m.hg m.ag r) = φ r + B m) :
    ∀ (ms : List MatchRes) (t : Nat → Row),
      (∀ m ∈ ms,
        m.home ∈ clubs.map Prod.fst ∧ m.away ∈ clubs.map Prod.fst ∧ m.home ≠ m.away) →
      (clubs.map (fun c => φ ((ms.foldl stepMatch t) c.1))).sum
        = (clubs.map (fun c => φ (t c.1))).sum + (ms.map (fun m => A m + B m)).sum
  | [], t, _ => by simp
  | m :: rest, t, hmem => by
    have hm := hmem m (List.mem_cons_self m rest)
    have hrest : ∀ m' ∈ rest,
        m'.home ∈ clubs.map Prod.fst ∧ m'.away ∈ clubs.map Prod.fst ∧ m'.home ≠ m'.away :=
      fun m' hm' => hmem m' (List.mem_cons_of_mem m hm')
    rw [List.foldl_cons, foldl_stepMatch_sum clubs φ A B hnd hH hA rest (stepMatch t m) hrest]
    have hpt : ∀ x, φ (stepMatch t m x) =
        if x = m.home then φ (t x) + A m
        else if x = m.away then φ (t x) + B m else φ (t x) := by
      intro x
      by_cases h2 : x = m.away
      · have h1 : x ≠ m.home := fun hh => hm.2.2 (hh.symm.trans h2)
        rw [stepMatch_apply, if_pos h2, if_neg h1, hA, if_neg h1, if_pos h2]
      · by_cases h1 : x = m.home
        · rw [stepMatch_apply, if_neg h2, if_pos h1, hH, if_pos h1]
        · rw [stepMatch_apply, if_neg h2, if_neg h1, if_neg h1, if_neg h2]
    have hdd : (clubs.map (fun c => φ (stepMatch t m c.1))).sum
        = (clubs.map (fun c => φ (t c.1))).sum + A m + B m :=
      sum_map_double clubs (fun x => φ (t x)) (fun x => φ (stepMatch t m x))
        m.home m.away (A m) (B m) hnd hm.2.2 hm.1 hm.2.1 hpt
    simp only [List.map_cons, List.sum_cons]
    omega

theorem rowLe_trans : ∀ a b c : Row, rowLe a b = true → rowLe b c = true → rowLe a c = true :=
  fun _ _ _ hab hbc => lexLe_trans hab hbc

theorem rowLe_total : ∀ a b : Row, (rowLe a b || rowLe b a) = true :=
  fun a b => lexLe_total (rowKey a) (rowKey b)

theorem scorerLe_trans : ∀ a b c : (Nat × String) × Nat,
    scorerLe a b = true → scorerLe b c = true → scorerLe a c = true :=
  fun _ _ _ hab hbc => lexLe_trans hab hbc

theorem scorerLe_total : ∀ a b : (Nat × String) × Nat, (scorerLe a b || scorerLe b a) = true :=
  fun a b => lexLe_total (scorerKey a) (scorerKey b)

theorem bpLe_trans : ∀ a b c : PlayerRec × Option ClubRec,
    bpLe a b = true → bpLe b c = true → bpLe a c = true :=
  fun _ _ _ hab hbc => lexLe_trans hab hbc

theorem bpLe_total : ∀ a b : PlayerRec × Option ClubRec, (bpLe a b || bpLe b a) = true :=
  fun a b => lexLe_total (bpKey a) (bpKey b)

theorem rowLe_imp {a b : Row} (h : rowLe a b = true) : standingsOrder a b := by
  have h' : lexLt (rowKey b) (rowKey a) = false := by
    unfold rowLe lexLe at h
    rwa [Bool.not_eq_true'] at h
  unfold rowKey at h'
  simp only [lexLt] at h'
  unfold standingsOrder
  rcases Nat.lt_trichotomy b.PTS a.PTS with h1 | h1 | h1
  · exact Or.inl h1
  · rw [if_neg (by omega : ¬(-(b.PTS : Int) < -(a.PTS : Int))),
      if_neg (by omega : ¬(-(a.PTS : Int) < -(b.PTS : Int)))] at h'
    refine Or.inr ⟨h1.symm, ?_⟩
    rcases lt_trichotomy b.GD a.GD with h2 | h2 | h2
    · exact Or.inl h2
    · rw [if_neg (by omega : ¬(-b.GD < -a.GD)), if_neg (by omega : ¬(-a.GD < -b.GD))] at h'
      refine Or.inr ⟨h2.symm, ?_⟩
      rcases Nat.lt_trichotomy b.GF a.GF with h3 | h3 | h3
      · exact Or.inl h3
      · rw [if_neg (by omega : ¬(-(b.GF : Int) < -(a.GF : Int))),
          if_neg (by omega : ¬(-(a.GF : Int) < -(b.GF : Int)))] at h'
        refine Or.inr ⟨h3.symm, ?_⟩
        unfold strLeCI lexLe
        rw [h']
        rfl
      · rw [if_pos (by omega : -(b.GF : Int) < -(a.GF : Int))] at h'
        simp at h'
    · rw [if_pos (by omega : -b.GD < -a.GD)] at h'
      simp at h'
  · rw [if_pos (by omega : -(b.PTS : Int) < -(a.PTS : Int))] at h'
    simp at h'

theorem sum_map_sub_int (l : List (Nat × String)) (f g : Nat → Nat) :
    (l.map (fun c => ((f c.1 : Int) - (g c.1 : Int)))).sum
      = ((l.map (fun c => f c.1)).sum : Int) - ((l.map (fun c => g c.1)).sum : Int) := by
  induction l with
  | nil => simp
  | cons c rest ih =>
    simp only [List.map_cons, List.sum_cons, ih]
    push_cast
    ring

theorem pts_contrib_sum :
    ∀ ms : List MatchRes,
      (ms.map (fun m => (if m.ag < m.hg then 3 else if m.hg = m.ag then 1 else 0) +
        (if m.hg < m.ag then 3 else if m.hg = m.ag then 1 else 0))).sum
        = 3 * ms.countP (fun m => decide (m.hg ≠ m.ag)) +
            2 * ms.countP (fun m => decide (m.hg = m.ag))
  | [] => rfl
  | m :: rest => by
    simp only [List.map_cons, List.sum_cons, List.countP_cons, pts_contrib_sum rest]
    rcases Nat.lt_trichotomy m.hg m.ag with h | h | h
    · simp [h, Nat.lt_asymm h, Nat.ne_of_lt h]
      omega
    · simp [h, Nat.lt_irrefl]
      omega
    · simp [h, Nat.lt_asymm h, (Nat.ne_of_lt h).symm]
      omega

/-- C1: for every table state and completed match between two distinct
clubs, the standings fold increments played, goals-for and goals-against
for both clubs, awards 3 points and a win to the side with strictly more
goals and a loss (and nothing else) to the other, awards 1 point and a
draw to each side when the goals are equal; and every row of the
standings output has goal difference equal to goals-for minus
goals-against. -/
theorem standings_fold_correct :
    (∀ (t : Nat → Row) (m : MatchRes), m.home ≠ m.away →
      (stepMatch t m m.home).P = (t m.home).P + 1 ∧
      (stepMatch t m m.away).P = (t m.away).P + 1 ∧
      (stepMatch t m m.home).GF = (t m.home).GF + m.hg ∧
      (stepMatch t m m.home).GA = (t m.home).GA + m.ag ∧
      (stepMatch t m m.away).GF = (t m.away).GF + m.ag ∧
      (stepMatch t m m.away).GA = (t m.away).GA + m.hg ∧
      (m.ag < m.hg →
        (stepMatch t m m.home).W = (t m.home).W + 1 ∧
        (stepMatch t m m.home).PTS = (t m.home).PTS + 3 ∧
        (stepMatch t m m.away).L = (t m.away).L + 1 ∧
        (stepMatch t m m.away).W = (t m.away).W ∧
        (stepMatch t m m.away).PTS = (t m.away).PTS ∧
        (stepMatch t m m.home).L = (t m.home).L) ∧
      (m.hg < m.ag →
        (stepMatch t m m.away).W = (t m.away).W + 1 ∧
        (stepMatch t m m.away).PTS = (t m.away).PTS + 3 ∧
        (stepMatch t m m.home).L = (t m.home).L + 1 ∧
        (stepMatch t m m.home).W = (t m.home).W ∧
        (stepMatch t m m.home).PTS = (t m.home).PTS ∧
        (stepMatch t m m.away).L = (t m.away).L) ∧
      (m.hg = m.ag →
        (stepMatch t m m.home).D = (t m.home).D + 1 ∧
        (stepMatch t m m.away).D = (t m.away).D + 1 ∧
        (stepMatch t m m.home).PTS = (t m.home).PTS + 1 ∧
        (stepMatch t m m.away).PTS = (t m.away).PTS + 1)) ∧
    (∀ (clubs : List (Nat × String)) (ms : List MatchRes),
      ∀ r ∈ tableRows clubs ms, r.GD = (r.GF : Int) - (r.GA : Int)) := by
  constructor
  · intro t m hne
    have hh : stepMatch t m m.home = applyHome m.hg m.ag (t m.home) := by
      rw [stepMatch_apply, if_neg hne, if_pos rfl]
    have ha : stepMatch t m m.away = applyAway m.hg m.ag (t m.away) := by
      rw [stepMatch_apply, if_pos rfl, if_neg (Ne.symm hne)]
    rw [hh, ha, applyHome_eq, applyAway_eq]
    rcases Nat.lt_trichotomy m.hg m.ag with hlt | heq | hgt
    · simp [addParts, hlt, Nat.lt_asymm hlt, Nat.ne_of_lt hlt]
    · simp [addParts, heq, Nat.lt_irrefl]
    · simp [addParts, hgt, Nat.lt_asymm hgt, (Nat.ne_of_lt hgt).symm]
  · intro clubs ms r hr
    unfold tableRows at hr
    rw [(perm_sortBy rowLe _).mem_iff] at hr
    obtain ⟨c, _, hc⟩ := List.mem_map.mp hr
    rw [← hc]
    simp [setGD]

/-- Witness for C1 at a concrete state and match. -/
theorem standings_fold_correct_witness :
    ((⟨1, 2, 3, 1⟩ : MatchRes).home ≠ (⟨1, 2, 3, 1⟩ : MatchRes).away) ∧
      (stepMatch (initTable [(1, "A"), (2, "B")]) ⟨1, 2, 3, 1⟩ 1).P
        = (initTable [(1, "A"), (2, "B")] 1).P + 1 :=
  ⟨by decide,
    (standings_fold_correct.1 (initTable [(1, "A"), (2, "B")]) ⟨1, 2, 3, 1⟩ (by decide)).1⟩

/-- C2: the standings output is sorted by descending points, then
descending goal difference, then descending goals-for, then ascending
club name compared case-insensitively. -/
theorem standings_sorted (clubs : List (Nat × String)) (ms : List MatchRes) :
    (tableRows clubs ms).Pairwise standingsOrder := by
  have hs := pairwise_sortBy rowLe_trans rowLe_total
    (clubs.map (fun c => setGD (foldTable clubs ms c.1)))
  exact hs.imp (fun hab => rowLe_imp hab)

/-- C3: permuting the match sequence leaves the standings unchanged, both
as the raw ranked rows and as the output of the table command. -/
theorem standings_perm_invariant (clubs : List (Nat × String)) {ms1 ms2 : List MatchRes}
    (h : ms1.Perm ms2) :
    tableRows clubs ms1 = tableRows clubs ms2 ∧ tableCmd clubs ms1 = tableCmd clubs ms2 := by
  have hfold : ms1.foldl stepMatch (initTable clubs) = ms2.foldl stepMatch (initTable clubs) := by
    letI : RightCommutative stepMatch := ⟨fun t m1 m2 => stepMatch_comm t m1 m2⟩
    exact h.foldl_eq _
  have hrows : tableRows clubs ms1 = tableRows clubs ms2 := by
    unfold tableRows foldTable
    rw [hfold]
  refine ⟨hrows, ?_⟩
  have hemp : ms1.isEmpty = ms2.isEmpty := by
    have hl := h.length_eq
    cases ms1 <;> cases ms2 <;> simp_all
  unfold tableCmd
  rw [hrows, hemp]

/-- Witness for C3 at a concrete permutation. -/
theorem standings_perm_invariant_witness :
    ([⟨1, 2, 3, 1⟩, ⟨2, 1, 0, 0⟩] : List MatchRes).Perm [⟨2, 1, 0, 0⟩, ⟨1, 2, 3, 1⟩] ∧
      tableRows [(1, "A"), (2, "B")] [⟨1, 2, 3, 1⟩, ⟨2, 1, 0, 0⟩]
        = tableRows [(1, "A"), (2, "B")] [⟨2, 1, 0, 0⟩, ⟨1, 2, 3, 1⟩] :=
  ⟨by decide, (standings_perm_invariant [(1, "A"), (2, "B")] (by decide)).1⟩

/-- C6: whenever the table command prints a table, every club of the
season gets a row, and a club that appears in no completed match gets an
all-zero row. -/
theorem zero_row_present (clubs : List (Nat × String)) (ms : List MatchRes)
    (cid : Nat) (nm : String) (hmem : (cid, nm) ∈ clubs)
    (hno : ∀ m ∈ ms, m.home ≠ cid ∧ m.away ≠ cid) :
    ∀ rows, tableCmd clubs ms = some rows →
      ({ name := nameOf clubs cid
         P := 0
         W := 0
         D := 0
         L := 0
         GF := 0
         GA := 0
         GD := 0
         PTS := 0 } : Row) ∈ rows := by
  intro rows hr
  unfold tableCmd at hr
  split_ifs at hr
  have hrows : rows = tableRows clubs ms := (Option.some.inj hr).symm
  subst hrows
  have hcell : setGD (foldTable clubs ms cid) = initRow (nameOf clubs cid) := by
    unfold foldTable
    rw [foldl_stepMatch_untouched ms (initTable clubs) cid hno]
    simp [initTable, setGD, initRow]
  show initRow (nameOf clubs cid) ∈ tableRows clubs ms
  unfold tableRows
  rw [(perm_sortBy rowLe _).mem_iff]
  exact List.mem_map.mpr ⟨(cid, nm), hmem, hcell⟩

/-- Witness for C6: a club with no completed match keeps an all-zero row. -/
theorem zero_row_present_witness :
    ((3, "C") ∈ [(1, "A"), (2, "B"), (3, "C")]) ∧
      (∀ m ∈ ([⟨1, 2, 1, 0⟩] : List MatchRes), m.home ≠ 3 ∧ m.away ≠ 3) ∧
      ({ name := "C"
         P := 0
         W := 0
         D := 0
         L := 0
         GF := 0
         GA := 0
         GD := 0
         PTS := 0 } : Row) ∈ tableRows [(1, "A"), (2, "B"), (3, "C")] [⟨1, 2, 1, 0⟩] :=
  ⟨by decide, by decide,
    zero_row_present [(1, "A"), (2, "B"), (3, "C")] [⟨1, 2, 1, 0⟩] 3 "C"
      (by decide) (by decide) _ rfl⟩

theorem lexLe_numHead_imp {n1 n2 : Nat} {t1 t2 : List Int}
    (h : lexLe (-(n1 : Int) :: t1) (-(n2 : Int) :: t2) = true) :
    n2 < n1 ∨ (n1 = n2 ∧ lexLe t1 t2 = true) := by
  have h' : lexLt (-(n2 : Int) :: t2) (-(n1 : Int) :: t1) = false := by
    unfold lexLe at h
    rwa [Bool.not_eq_true'] at h
  simp only [lexLt] at h'
  rcases Nat.lt_trichotomy n2 n1 with h1 | h1 | h1
  · exact Or.inl h1
  · rw [if_neg (by omega : ¬(-(n2 : Int) < -(n1 : Int))),
      if_neg (by omega : ¬(-(n1 : Int) < -(n2 : Int)))] at h'
    refine Or.inr ⟨h1.symm, ?_⟩
    unfold lexLe
    rw [h']
    rfl
  · rw [if_pos (by omega : -(n2 : Int) < -(n1 : Int))] at h'
    simp at h'

theorem scorerLe_imp {x y : (Nat × String) × Nat} (h : scorerLe x y = true) :
    y.2 < x.2 ∨ (x.2 = y.2 ∧ lexLe (nameKey x.1.2) (nameKey y.1.2) = true) :=
  lexLe_numHead_imp h

theorem bpLe_imp {x y : PlayerRec × Option ClubRec} (h : bpLe x y = true) :
    overall4 y.1 < overall4 x.1 ∨
      (overall4 x.1 = overall4 y.1 ∧ lexLe (nameKey x.1.name) (nameKey y.1.name) = true) :=
  lexLe_numHead_imp h

theorem pairwise_enumFrom_snd {α : Type} {R : α → α → Prop} :
    ∀ (l : List α) (n : Nat), l.Pairwise R →
      (l.enumFrom n).Pairwise (fun a b => R a.2 b.2)
  | [], _, _ => List.Pairwise.nil
  | a :: as, n, h => by
    rw [List.pairwise_cons] at h
    rw [List.enumFrom_cons, List.pairwise_cons]
    refine ⟨?_, pairwise_enumFrom_snd as (n + 1) h.2⟩
    intro b hb
    have hmem : b.2 ∈ as := by
      have hm := List.mem_map_of_mem Prod.snd hb
      rwa [List.enumFrom_map_snd] at hm
    exact h.1 b.2 hmem

/-- C9: summed over the standings rows, goals-for equals goals-against,
the goal differences sum to zero, wins equal losses, and total points are
3 per decisive match plus 2 per drawn match. -/
theorem standings_conservation (clubs : List (Nat × String)) (ms : List MatchRes)
    (hnd : (clubs.map Prod.fst).Nodup)
    (hok : ∀ m ∈ ms,
      m.home ∈ clubs.map Prod.fst ∧ m.away ∈ clubs.map Prod.fst ∧ m.home ≠ m.away) :
    ((tableRows clubs ms).map (fun r => r.GF)).sum
        = ((tableRows clubs ms).map (fun r => r.GA)).sum ∧
      ((tableRows clubs ms).map (fun r => r.GD)).sum = 0 ∧
      ((tableRows clubs ms).map (fun r => r.W)).sum
        = ((tableRows clubs ms).map (fun r => r.L)).sum ∧
      ((tableRows clubs ms).map (fun r => r.PTS)).sum
        = 3 * ms.countP (fun m => decide (m.hg ≠ m.ag))
          + 2 * ms.countP (fun m => decide (m.hg = m.ag)) := by
  have hbridgeN : ∀ (φ : Row → Nat), (∀ r, φ (setGD r) = φ r) →
      ((tableRows clubs ms).map φ).sum
        = (clubs.map (fun c => φ (foldTable clubs ms c.1))).sum := by
    intro φ hφ
    unfold tableRows
    rw [((perm_sortBy rowLe (clubs.map (fun c => setGD (foldTable clubs ms c.1)))).map φ).sum_eq,
      List.map_map]
    exact congrArg List.sum (List.map_congr_left (fun c _ => hφ (foldTable clubs ms c.1)))
  have hGF : (clubs.map (fun c => (foldTable clubs ms c.1).GF)).sum
      = (clubs.map (fun c => (initTable clubs c.1).GF)).sum
        + (ms.map (fun m => m.hg + m.ag)).sum :=
    foldl_stepMatch_sum clubs (fun r => r.GF) (fun m => m.hg) (fun m => m.ag) hnd
      (fun r m => by rw [applyHome_eq]; exact rfl) (fun r m => by rw [applyAway_eq]; exact rfl)
      ms (initTable clubs) hok
  have hGA : (clubs.map (fun c => (foldTable clubs ms c.1).GA)).sum
      = (clubs.map (fun c => (initTable clubs c.1).GA)).sum
        + (ms.map (fun m => m.ag + m.hg)).sum :=
    foldl_stepMatch_sum clubs (fun r => r.GA) (fun m => m.ag) (fun m => m.hg) hnd
      (fun r m => by rw [applyHome_eq]; exact rfl) (fun r m => by rw [applyAway_eq]; exact rfl)
      ms (initTable clubs) hok
  have hW : (clubs.map (fun c => (foldTable clubs ms c.1).W)).sum
      = (clubs.map (fun c => (initTable clubs c.1).W)).sum
        + (ms.map (fun m =>
            (if m.ag < m.hg then 1 else 0) + (if m.hg < m.ag then 1 else 0))).sum :=
    foldl_stepMatch_sum clubs (fun r => r.W) (fun m => if m.ag < m.hg then 1 else 0)
      (fun m => if m.hg < m.ag then 1 else 0) hnd
      (fun r m => by rw [applyHome_eq]; exact rfl) (fun r m => by rw [applyAway_eq]; exact rfl)
      ms (initTable clubs) hok
  have hL : (clubs.map (fun c => (foldTable clubs ms c.1).L)).sum
      = (clubs.map (fun c => (initTable clubs c.1).L)).sum
        + (ms.map (fun m =>
            (if m.hg < m.ag then 1 else 0) + (if m.ag < m.hg then 1 else 0))).sum :=
    foldl_stepMatch_sum clubs (fun r => r.L) (fun m => if m.hg < m.ag then 1 else 0)
      (fun m => if m.ag < m.hg then 1 else 0) hnd
      (fun r m => by rw [applyHome_eq]; exact rfl) (fun r m => by rw [applyAway_eq]; exact rfl)
      ms (initTable clubs) hok
  have hPTS : (clubs.map (fun c => (foldTable clubs ms c.1).PTS)).sum
      = (clubs.map (fun c => (initTable clubs c.1).PTS)).sum
        + (ms.map (fun m =>
            (if m.ag < m.hg then 3 else if m.hg = m.ag then 1 else 0) +
              (if m.hg < m.ag then 3 else if m.hg = m.ag then 1 else 0))).sum :=
    foldl_stepMatch_sum clubs (fun r => r.PTS)
      (fun m => if m.ag < m.hg then 3 else if m.hg = m.ag then 1 else 0)
      (fun m => if m.hg < m.ag then 3 else if m.hg = m.ag then 1 else 0) hnd
      (fun r m => by rw [applyHome_eq]; exact rfl) (fun r m => by rw [applyAway_eq]; exact rfl)
      ms (initTable clubs) hok
  have hinit : ∀ (φ : Row → Nat), (∀ nm, φ (initRow nm) = 0) →
      (clubs.map (fun c => φ (initTable clubs c.1))).sum = 0 := by
    intro φ hφ
    have : clubs.map (fun c => φ (initTable clubs c.1)) = clubs.map (fun _ => 0) :=
      List.map_congr_left (fun c _ => hφ (nameOf clubs c.1))
    simp [this]
  have hGFc : (clubs.map (fun c => (foldTable clubs ms c.1).GF)).sum
      = (ms.map (fun m => m.hg + m.ag)).sum := by
    rw [hGF, hinit (fun r => r.GF) (fun nm => rfl), Nat.zero_add]
  have hGAc : (clubs.map (fun c => (foldTable clubs ms c.1).GA)).sum
      = (ms.map (fun m => m.ag + m.hg)).sum := by
    rw [hGA, hinit (fun r => r.GA) (fun nm => rfl), Nat.zero_add]
  have hsum_comm : (ms.map (fun m => m.hg + m.ag)).sum
      = (ms.map (fun m => m.ag + m.hg)).sum :=
    congrArg List.sum (List.map_congr_left (fun m _ => Nat.add_comm m.hg m.ag))
  refine ⟨?_, ?_, ?_, ?_⟩
  · rw [hbridgeN (fun r => r.GF) (fun r => rfl), hbridgeN (fun r => r.GA) (fun r => rfl),
      hGFc, hGAc, hsum_comm]
  · have hbridgeZ : ((tableRows clubs ms).map (fun r => r.GD)).sum
        = (clubs.map (fun c =>
            (((foldTable clubs ms c.1).GF : Int) - ((foldTable clubs ms c.1).GA : Int)))).sum := by
      unfold tableRows
      rw [((perm_sortBy rowLe (clubs.map (fun c => setGD (foldTable clubs ms c.1)))).map
          (fun r => r.GD)).sum_eq, List.map_map]
      refine congrArg List.sum (List.map_congr_left ?_)
      intro c _
      simp [setGD]
    have hsub : (clubs.map (fun c =>
        (((foldTable clubs ms c.1).GF : Int) - ((foldTable clubs ms c.1).GA : Int)))).sum
        = ((clubs.map (fun c => (foldTable clubs ms c.1).GF)).sum : Int)
          - ((clubs.map (fun c => (foldTable clubs ms c.1).GA)).sum : Int) :=
      sum_map_sub_int clubs (fun x => (foldTable clubs ms x).GF)
        (fun x => (foldTable clubs ms x).GA)
    rw [hbridgeZ, hsub, hGFc, hGAc, hsum_comm, sub_self]
  · have hWL : (ms.map (fun m =>
        (if m.ag < m.hg then 1 else 0) + (if m.hg < m.ag then 1 else 0))).sum
        = (ms.map (fun m =>
            (if m.hg < m.ag then 1 else 0) + (if m.ag < m.hg then 1 else 0))).sum :=
      congrArg List.sum (List.map_congr_left (fun m _ => Nat.add_comm _ _))
    rw [hbridgeN (fun r => r.W) (fun r => rfl), hbridgeN (fun r => r.L) (fun r => rfl),
      hW, hL, hinit (fun r => r.W) (fun nm => rfl), hinit (fun r => r.L) (fun nm => rfl),
      Nat.zero_add, Nat.zero_add, hWL]
  · rw [hbridgeN (fun r => r.PTS) (fun r => rfl), hPTS,
      hinit (fun r => r.PTS) (fun nm => rfl), Nat.zero_add, pts_contrib_sum]

/-- Witness for C9 at a concrete season. -/
theorem standings_conservation_witness :
    ((([(1, "A"), (2, "B")] : List (Nat × String)).map Prod.fst).Nodup) ∧
      ((tableRows [(1, "A"), (2, "B")] [⟨1, 2, 3, 1⟩, ⟨1, 2, 0, 0⟩]).map (fun r => r.GF)).sum
        = ((tableRows [(1, "A"), (2, "B")] [⟨1, 2, 3, 1⟩, ⟨1, 2, 0, 0⟩]).map
            (fun r => r.GA)).sum :=
  ⟨by decide,
    (standings_conservation [(1, "A"), (2, "B")] [⟨1, 2, 3, 1⟩, ⟨1, 2, 0, 0⟩]
      (by decide) (by decide)).1⟩

/-- C4: the top-scorers ranking excludes every own goal, groups the
remaining goals by player and counts them, is sorted by descending count
then ascending player name, is truncated to the limit, and assigns ranks
strictly 1..k by output position with no rank compression. -/
theorem topscorers_correct (goals : List GoalEv) (limit : Nat) :
    (∀ e ∈ topscorers goals limit, ∃ pid : Nat,
      e.2.2 = goals.countP (fun g => decide ((g.pid, g.pname) = (pid, e.2.1)) && !g.own)) ∧
    (topscorers goals limit).Pairwise (fun x y =>
      y.2.2 < x.2.2 ∨ (x.2.2 = y.2.2 ∧ lexLe (nameKey x.2.1) (nameKey y.2.1) = true)) ∧
    (topscorers goals limit).length
      = min limit (((goals.filter (fun g => !g.own)).map
          (fun g => (g.pid, g.pname))).dedup.length) ∧
    (topscorers goals limit).map (fun e => e.1)
      = List.range' 1 (topscorers goals limit).length := by
  refine ⟨?_, ?_, ?_, ?_⟩
  · intro e he
    unfold topscorers at he
    obtain ⟨p, hp, hfe⟩ := List.mem_map.mp he
    obtain ⟨idx, key0, cnt0⟩ := p
    have hx : (key0, cnt0) ∈ (sortBy scorerLe (scorerCounts goals)).take limit := by
      have hm := List.mem_map_of_mem Prod.snd hp
      rwa [List.enum_map_snd] at hm
    have hx2 : (key0, cnt0) ∈ scorerCounts goals :=
      (perm_sortBy scorerLe (scorerCounts goals)).mem_iff.mp (List.take_subset limit _ hx)
    unfold scorerCounts at hx2
    obtain ⟨k, hk, hkx⟩ := List.mem_map.mp hx2
    injection hkx with hk1 hk2
    subst hk1
    refine ⟨k.1, ?_⟩
    rw [← hfe]
    show cnt0 = goals.countP (fun g => decide ((g.pid, g.pname) = (k.1, k.2)) && !g.own)
    simp only [Prod.mk.eta]
    exact hk2.symm.trans (List.countP_filter _ _ _)
  · unfold topscorers
    have hs := pairwise_sortBy scorerLe_trans scorerLe_total (scorerCounts goals)
    have ht := List.Pairwise.sublist (List.take_sublist limit _) hs
    have he := pairwise_enumFrom_snd ((sortBy scorerLe (scorerCounts goals)).take limit) 0 ht
    rw [List.pairwise_map]
    exact he.imp (fun hab => scorerLe_imp hab)
  · unfold topscorers
    rw [List.length_map, List.enum_length, List.length_take, length_sortBy]
    unfold scorerCounts validGoals
    rw [List.length_map]
  · unfold topscorers
    rw [List.map_map, List.length_map, List.enum_length,
      show ((fun e : Nat × String × Nat => e.1) ∘
          (fun e : Nat × ((Nat × String) × Nat) => (e.1 + 1, e.2.1.2, e.2.2)))
        = ((fun n => n + 1) ∘ Prod.fst) from rfl,
      ← List.map_map, List.enum_map_fst, List.range'_eq_map_range]
    exact List.map_congr_left (fun n _ => Nat.add_comm n 1)

/-- Witness for C4 at a concrete goal list, with an own goal excluded. -/
theorem topscorers_correct_witness :
    ((1, "Zed", 2) : Nat × String × Nat) ∈
        topscorers [⟨1, "Zed", false⟩, ⟨1, "Zed", false⟩, ⟨2, "Ann", false⟩,
          ⟨3, "Bob", true⟩] 10 ∧
      ∃ pid : Nat, ((1, "Zed", 2) : Nat × String × Nat).2.2
        = ([⟨1, "Zed", false⟩, ⟨1, "Zed", false⟩, ⟨2, "Ann", false⟩,
            ⟨3, "Bob", true⟩] : List GoalEv).countP
            (fun g => decide ((g.pid, g.pname)
              = (pid, ((1, "Zed", 2) : Nat × String × Nat).2.1)) && !g.own) :=
  ⟨by decide, (topscorers_correct [⟨1, "Zed", false⟩, ⟨1, "Zed", false⟩,
    ⟨2, "Ann", false⟩, ⟨3, "Bob", true⟩] 10).1 (1, "Zed", 2) (by decide)⟩

/-- C5 counterexample: a fixture and its home/away-reversed copy in the
same round of the same season satisfy the ordered-tuple uq_fixture
constraint, refuting the claim that the constraint rules them out. -/
theorem fixture_reverse_pair_counterexample :
    fixtureConstraintOK [⟨1, 1, 1, 2⟩, ⟨1, 1, 2, 1⟩] = true ∧
      (⟨1, 1, 1, 2⟩ : FixtureRec) ∈ ([⟨1, 1, 1, 2⟩, ⟨1, 1, 2, 1⟩] : List FixtureRec) ∧
      (⟨1, 1, 2, 1⟩ : FixtureRec) ∈ ([⟨1, 1, 1, 2⟩, ⟨1, 1, 2, 1⟩] : List FixtureRec) ∧
      (⟨1, 1, 1, 2⟩ : FixtureRec) ≠ (⟨1, 1, 2, 1⟩ : FixtureRec) ∧
      (⟨1, 1, 1, 2⟩ : FixtureRec).seasonId = (⟨1, 1, 2, 1⟩ : FixtureRec).seasonId ∧
      (⟨1, 1, 1, 2⟩ : FixtureRec).round = (⟨1, 1, 2, 1⟩ : FixtureRec).round ∧
      (⟨1, 1, 1, 2⟩ : FixtureRec).homeClubId = (⟨1, 1, 2, 1⟩ : FixtureRec).awayClubId ∧
      (⟨1, 1, 1, 2⟩ : FixtureRec).awayClubId = (⟨1, 1, 2, 1⟩ : FixtureRec).homeClubId := by
  decide

/-- C5 (amended): the uq_fixture constraint makes the ordered tuple
(season, round, home, away) unique; hence two distinct fixture rows of
the same season and round sharing an unordered pairing must be mutual
home/away reversals with distinct clubs, while the reversed copy itself
is not excluded. -/
theorem fixture_constraint_amended (fs : List FixtureRec)
    (hok : fixtureConstraintOK fs = true)
    (i j : Fin fs.length) (hij : i ≠ j)
    (hs : (fs.get i).seasonId = (fs.get j).seasonId)
    (hr : (fs.get i).round = (fs.get j).round)
    (hpair : ((fs.get i).homeClubId = (fs.get j).homeClubId ∧
        (fs.get i).awayClubId = (fs.get j).awayClubId) ∨
      ((fs.get i).homeClubId = (fs.get j).awayClubId ∧
        (fs.get i).awayClubId = (fs.get j).homeClubId)) :
    (fs.get i).homeClubId = (fs.get j).awayClubId ∧
      (fs.get i).awayClubId = (fs.get j).homeClubId ∧
      (fs.get i).homeClubId ≠ (fs.get i).awayClubId := by
  have hnd : (fs.map uqKey).Nodup := of_decide_eq_true hok
  have hlen : ∀ x : Fin fs.length, x.1 < (fs.map uqKey).length := by
    intro x
    rw [List.length_map]
    exact x.2
  have hkey : uqKey (fs.get i) ≠ uqKey (fs.get j) := by
    intro he
    apply hij
    have h1 : (fs.map uqKey).get ⟨i.1, hlen i⟩ = uqKey (fs.get i) :=
      List.get_map uqKey
    have h2 : (fs.map uqKey).get ⟨j.1, hlen j⟩ = uqKey (fs.get j) :=
      List.get_map uqKey
    have hfin := hnd.get_inj_iff.mp (h1.trans (he.trans h2.symm))
    have hv : i.1 = j.1 := congrArg (fun x : Fin (fs.map uqKey).length => x.1) hfin
    exact Fin.ext hv
  rcases hpair with ⟨h1, h2⟩ | ⟨h1, h2⟩
  · exact absurd (by unfold uqKey; rw [hs, hr, h1, h2]) hkey
  · refine ⟨h1, h2, ?_⟩
    intro heq
    apply hkey
    unfold uqKey
    rw [hs, hr, heq.trans h2, heq.symm.trans h1]

/-- Witness for C5 (amended) at the counterexample pair. -/
theorem fixture_constraint_amended_witness :
    fixtureConstraintOK [⟨1, 1, 1, 2⟩, ⟨1, 1, 2, 1⟩] = true ∧
      (([⟨1, 1, 1, 2⟩, ⟨1, 1, 2, 1⟩] : List FixtureRec).get ⟨0, by decide⟩).homeClubId
          = (([⟨1, 1, 1, 2⟩, ⟨1, 1, 2, 1⟩] : List FixtureRec).get ⟨1, by decide⟩).awayClubId ∧
        (([⟨1, 1, 1, 2⟩, ⟨1, 1, 2, 1⟩] : List FixtureRec).get ⟨0, by decide⟩).awayClubId
          = (([⟨1, 1, 1, 2⟩, ⟨1, 1, 2, 1⟩] : List FixtureRec).get ⟨1, by decide⟩).homeClubId ∧
        (([⟨1, 1, 1, 2⟩, ⟨1, 1, 2, 1⟩] : List FixtureRec).get ⟨0, by decide⟩).homeClubId
          ≠ (([⟨1, 1, 1, 2⟩, ⟨1, 1, 2, 1⟩] : List FixtureRec).get ⟨0, by decide⟩).awayClubId :=
  ⟨by decide,
    fixture_constraint_amended [⟨1, 1, 1, 2⟩, ⟨1, 1, 2, 1⟩] (by decide)
      ⟨0, by decide⟩ ⟨1, by decide⟩ (by decide) (by decide) (by decide)
      (Or.inr (by decide))⟩

/-- C7: a non-empty position string validates exactly when its
upper-cased stripped form is one of GK, DF, MF, FW; otherwise the
validation error is raised; on success the normalized code is returned. -/
theorem normalize_position_correct (s : String) (hne : s ≠ "") :
    (upperStrip s ∉ validPositions →
      normalizePosition (some s) = Except.error "Poste invalide. Utilise GK/DF/MF/FW.") ∧
    (upperStrip s ∈ validPositions →
      normalizePosition (some s) = Except.ok (some (upperStrip s))) := by
  constructor <;> intro h <;> simp [normalizePosition, hne, h]

/-- Witness for C7: a lowercase padded code normalizes, a bad code errors. -/
theorem normalize_position_correct_witness :
    (" fw " : String) ≠ "" ∧ upperStrip " fw " ∈ validPositions ∧
      normalizePosition (some " fw ") = Except.ok (some (upperStrip " fw ")) ∧
      ("xx" : String) ≠ "" ∧ upperStrip "xx" ∉ validPositions ∧
      normalizePosition (some "xx")
        = Except.error "Poste invalide. Utilise GK/DF/MF/FW." :=
  ⟨by decide, by decide,
    (normalize_position_correct " fw " (by decide)).2 (by decide),
    by decide, by decide,
    (normalize_position_correct "xx" (by decide)).1 (by decide)⟩

/-- C8: the best-players query sorts by descending overall score — the
unweighted mean of pace, shot, pass and defend, stated here as the exact
rational mean — with ascending player name as tiebreak, and truncates to
the limit. -/
theorem best_players_sorted (players : List PlayerRec) (clubs : List ClubRec)
    (seasonFilter : Option Nat) (posFilter : Option String) (limit : Nat) :
    (queryRows players clubs seasonFilter posFilter limit).Pairwise (fun x y =>
      ((y.1.pace : ℚ) + y.1.shot + y.1.pass_ + y.1.defend) / 4
          < ((x.1.pace : ℚ) + x.1.shot + x.1.pass_ + x.1.defend) / 4 ∨
        (((x.1.pace : ℚ) + x.1.shot + x.1.pass_ + x.1.defend) / 4
            = ((y.1.pace : ℚ) + y.1.shot + y.1.pass_ + y.1.defend) / 4 ∧
          lexLe (nameKey x.1.name) (nameKey y.1.name) = true)) ∧
    (queryRows players clubs seasonFilter posFilter limit).length
      = min limit ((joinedRows players clubs).filter
          (fun r => seasonKeep seasonFilter r.2 && posKeep posFilter r.1)).length := by
  constructor
  · have hs := pairwise_sortBy bpLe_trans bpLe_total
      ((joinedRows players clubs).filter
        (fun r => seasonKeep seasonFilter r.2 && posKeep posFilter r.1))
    have ht := List.Pairwise.sublist (List.take_sublist limit _) hs
    refine ht.imp ?_
    intro a b hab
    rcases bpLe_imp hab with h | ⟨h1, h2⟩
    · left
      unfold overall4 at h
      have hq : ((b.1.pace : ℚ) + b.1.shot + b.1.pass_ + b.1.defend)
          < ((a.1.pace : ℚ) + a.1.shot + a.1.pass_ + a.1.defend) := by
        exact_mod_cast h
      exact (div_lt_div_iff_of_pos_right (by norm_num : (0 : ℚ) < 4)).mpr hq
    · right
      refine ⟨?_, h2⟩
      unfold overall4 at h1
      have hq : ((a.1.pace : ℚ) + a.1.shot + a.1.pass_ + a.1.defend)
          = ((b.1.pace : ℚ) + b.1.shot + b.1.pass_ + b.1.defend) := by
        exact_mod_cast h1
      rw [hq]
  · unfold queryRows
    rw [List.length_take, length_sortBy]

/-- C10: with a season filter the best-players query keeps only players
whose outer-joined club exists and belongs to the season (so club-less
players are excluded); without a season filter club-less players pass the
filter and their payload carries the placeholder club label. -/
theorem best_players_clubless (players : List PlayerRec) (clubs : List ClubRec)
    (posFilter : Option String) (limit : Nat) :
    (∀ sid : Nat, ∀ r ∈ queryRows players clubs (some sid) posFilter limit,
      ∃ c : ClubRec, r.2 = some c ∧ c.seasonId = sid) ∧
    (∀ p ∈ players, posKeep posFilter p = true →
      (p, joinClub clubs p) ∈ (joinedRows players clubs).filter
        (fun r => seasonKeep none r.2 && posKeep posFilter r.1)) ∧
    (∀ (i : Nat) (r : PlayerRec × Option ClubRec), r.2 = none →
      (payloadOf i r).club = "(libre)") := by
  refine ⟨?_, ?_, ?_⟩
  · intro sid r hr
    unfold queryRows at hr
    have hr2 := (perm_sortBy bpLe _).mem_iff.mp (List.take_subset limit _ hr)
    rw [List.mem_filter, Bool.and_eq_true] at hr2
    have hseason := hr2.2.1
    cases hc : r.2 with
    | none =>
      rw [hc] at hseason
      simp [seasonKeep] at hseason
    | some c =>
      rw [hc] at hseason
      refine ⟨c, rfl, ?_⟩
      simpa [seasonKeep] using hseason
  · intro p hp hpos
    rw [List.mem_filter]
    refine ⟨List.mem_map_of_mem (fun q => (q, joinClub clubs q)) hp, ?_⟩
    simp [seasonKeep, hpos]
  · intro i r hr
    simp [payloadOf, hr]

/-- Witness for C10: the season filter keeps the clubbed player and the
club-less player carries the placeholder label. -/
theorem best_players_clubless_witness :
    ((⟨1, "Zed", 20, "FW", some 1, 80, 80, 80, 81⟩, some ⟨1, 5, "Ajax"⟩) :
        PlayerRec × Option ClubRec) ∈
      queryRows [⟨1, "Zed", 20, "FW", some 1, 80, 80, 80, 81⟩,
        ⟨2, "Ann", 21, "MF", none, 80, 80, 80, 80⟩] [⟨1, 5, "Ajax"⟩] (some 5) none 10 ∧
    (∃ c : ClubRec, (some (⟨1, 5, "Ajax"⟩ : ClubRec) : Option ClubRec) = some c ∧
      c.seasonId = 5) ∧
    (payloadOf 1 ((⟨2, "Ann", 21, "MF", none, 80, 80, 80, 80⟩ :
      PlayerRec), (none : Option ClubRec))).club = "(libre)" :=
  ⟨by decide,
    (best_players_clubless [⟨1, "Zed", 20, "FW", some 1, 80, 80, 80, 81⟩,
        ⟨2, "Ann", 21, "MF", none, 80, 80, 80, 80⟩] [⟨1, 5, "Ajax"⟩] none 10).1 5
      (⟨1, "Zed", 20, "FW", some 1, 80, 80, 80, 81⟩, some ⟨1, 5, "Ajax"⟩) (by decide),
    (best_players_clubless [⟨1, "Zed", 20, "FW", some 1, 80, 80, 80, 81⟩,
        ⟨2, "Ann", 21, "MF", none, 80, 80, 80, 80⟩] [⟨1, 5, "Ajax"⟩] none 10).2.2 1
      (⟨2, "Ann", 21, "MF", none, 80, 80, 80, 80⟩, none) rfl⟩

end FootySim
